import Mathlib

/-!
Verification of the CNN_ASL repository's data/format contract: the
preprocessing sequence (normalize, reshape, one-hot encode), the fixed
alphabet mapping, the architecture declarations of the two training
notebooks, the augmented-batch training bounds, model persistence, and the
inference pipeline `predict_letter`.

Pixel intensities are embedded as natural numbers (CSV integers 0..255) and
normalized values as rationals, so that the division by 255 is exact.
External framework primitives (image loading, the network forward pass,
serialization, the augmentation generator) are abstracted as parameters or
modelled from the specification, while every glue step written in the
notebooks is embedded directly from their code.
-/

namespace CNNASL

/-- Error kinds of the specification's Preprocessor / Inference Pipeline. -/
inductive PrepError where
  | ShapeMismatch
  | LabelOutOfRange
  | ImageNotFound
  | UnsupportedImageFormat
deriving DecidableEq

/-- The fixed ordered alphabet from the inference notebook:
`alphabet = "abcdefghiklmnopqrstuvwxy"` (no j, no z). -/
def alphabet : String := "abcdefghiklmnopqrstuvwxy"

/-- The 26 lowercase letters, for stating what `alphabet` omits. -/
def lowercaseLetters : List Char := "abcdefghijklmnopqrstuvwxyz".toList

/-- Maximum value of a list of rationals (0 for the empty list), following
the structure of the arg-max recursion below. -/
def maxList : List ℚ → ℚ
  | [] => 0
  | [x] => x
  | x :: y :: ys => max x (maxList (y :: ys))

/-- `np.argmax`: index of the maximum value, first occurrence winning ties. -/
def argmax : List ℚ → ℕ
  | [] => 0
  | [_] => 0
  | x :: y :: ys => if maxList (y :: ys) ≤ x then 0 else argmax (y :: ys) + 1

/-- Training normalization from the notebooks: `x_train = x_train / 255`,
mapping integer intensities to exact rationals. -/
def normalize (pixels : List ℕ) : List ℚ :=
  pixels.map (fun p : ℕ => (p : ℚ) / 255)

/-- The scalar operation shared by training and inference normalization. -/
def normalizeValue (v : ℚ) : ℚ := v / 255

/-- `img_to_array`: the 28x28 grayscale image as a flat numeric array. -/
def img_to_array (image : List ℕ) : List ℚ :=
  image.map (fun p : ℕ => (p : ℚ))

/-- Split a flat list into `n` consecutive rows of 28 entries each. -/
def chunkRows : ℕ → List ℚ → List (List ℚ)
  | 0, _ => []
  | n + 1, l => l.take 28 :: chunkRows n (l.drop 28)

/-- View a flat 784-vector as a 28x28 grid with one channel per cell. -/
def pixelGrid (l : List ℚ) : List (List (List ℚ)) :=
  (chunkRows 28 l).map (fun row => row.map (fun p => [p]))

/-- Modelled from the spec: the numpy `reshape` of a flat pixel vector to a
28x28x1 grid, which the repository invokes but whose size check lives in the
external numerical library; it fails with `ShapeMismatch` unless the input
has exactly 784 entries. -/
def reshapePixels (pixels : List ℚ) : Except PrepError (List (List (List ℚ))) :=
  if pixels.length = 784 then .ok (pixelGrid pixels) else .error .ShapeMismatch

/-- The inference reshape `image.reshape(1,28,28,1)`: a batch of one grid. -/
def reshape_1_28_28_1 (l : List ℚ) :
    Except PrepError (List (List (List (List ℚ)))) :=
  match reshapePixels l with
  | .ok g => .ok [g]
  | .error e => .error e

/-- Elementwise map over a (1,28,28,1) tensor: `image = image / 255` divides
every entry of the reshaped tensor. -/
def mapGrid4 (f : ℚ → ℚ) (t : List (List (List (List ℚ)))) :
    List (List (List (List ℚ))) :=
  t.map (fun a => a.map (fun b => b.map (fun c => c.map f)))

/-- The inference wrapper `predict_letter` from the prediction notebook,
embedded step for step.  The external primitives are parameters:
`load_and_scale_image` stands for the keras grayscale 28x28 image loader
(None when the file is missing or unreadable) and `model_predict` for the
loaded model's forward pass on a (1,28,28,1) tensor. -/
def predict_letter (load_and_scale_image : String → Option (List ℕ))
    (model_predict : List (List (List (List ℚ))) → List ℚ)
    (file_path : String) : Option Char :=
  match load_and_scale_image file_path with
  | none => none
  | some image =>
    match reshape_1_28_28_1 (img_to_array image) with
    | .error _ => none
    | .ok reshaped =>
      let scaled := mapGrid4 normalizeValue reshaped
      let prediction := model_predict scaled
      alphabet.toList.get? (argmax prediction)

/-- Modelled from the spec: `oneHotEncode(label, numClasses)` (the notebooks
delegate to the external framework's `to_categorical`); maps an integer in
[0, numClasses) to an indicator vector and fails with `LabelOutOfRange`
outside that interval. -/
def oneHotEncode (label : ℤ) (numClasses : ℕ) : Except PrepError (List ℚ) :=
  if 0 ≤ label ∧ label < (numClasses : ℤ) then
    .ok ((List.range numClasses).map (fun i => if (i : ℤ) = label then 1 else 0))
  else
    .error .LabelOutOfRange

/-- A blank all-zero 28x28 grayscale image, flat. -/
def blankImage : List ℕ := List.replicate 784 0

/-- A fixed file path for concrete evaluations of the pipeline. -/
def blankPath : String := "blank.png"

/-- An image loader that finds the blank image at every path. -/
def constLoader : String → Option (List ℕ) := fun _ => some blankImage

/-- A degenerate (untrained/saturated) model: the same 24-element output on
every input, all entries equal, so every entry ties for the maximum. -/
def uniformModel : List (List (List (List ℚ))) → List ℚ :=
  fun _ => List.replicate 24 0

/-- Label data as a numeric tensor of unspecified rank: a flat vector of
scalar labels before encoding, nested one level deeper per application of
the categorical encoding. -/
inductive Tensor where
  | scalar : ℕ → Tensor
  | arr : List Tensor → Tensor

/-- The 24-wide indicator row produced for one scalar label. -/
def oneHotRow (s : ℕ) : List Tensor :=
  (List.range 24).map (fun i => Tensor.scalar (if i = s then 1 else 0))

mutual

/-- `keras.utils.to_categorical(y, 24)`: every scalar entry of the tensor is
replaced by its 24-wide indicator row, nesting the data one level deeper. -/
def to_categorical : Tensor → Tensor
  | .scalar s => .arr (oneHotRow s)
  | .arr ts => .arr (to_categoricalList ts)

/-- `to_categorical` mapped over a list of subtensors. -/
def to_categoricalList : List Tensor → List Tensor
  | [] => []
  | t :: ts => to_categorical t :: to_categoricalList ts

end

mutual

/-- `y.shape[-1]`: the size of the innermost dimension, read along the first
element of each nesting level (numpy arrays are rectangular). -/
def lastDim : Tensor → ℕ
  | .scalar _ => 0
  | .arr ts => lastDimList ts

/-- `lastDim` of a dimension given by a list of subtensors. -/
def lastDimList : List Tensor → ℕ
  | [] => 0
  | Tensor.scalar _ :: ts => ts.length + 1
  | Tensor.arr us :: _ => lastDim (Tensor.arr us)

end

mutual

/-- Nesting depth of a tensor along the first element of each level (the
number of axes of the corresponding rectangular array). -/
def depth : Tensor → ℕ
  | .scalar _ => 0
  | .arr ts => depthList ts

/-- `depth` of a dimension given by a list of subtensors. -/
def depthList : List Tensor → ℕ
  | [] => 1
  | t :: _ => depth t + 1

end

/-- The raw scalar label column as a one-axis tensor. -/
def flatLabels (labels : List ℕ) : Tensor := .arr (labels.map Tensor.scalar)

/-- The guarded encoding step of the first training notebook:
`if not y_train.shape[-1] == 24: y_train = keras.utils.to_categorical(...)`. -/
def encode_step_a (y : Tensor) : Tensor :=
  if lastDim y = 24 then y else to_categorical y

/-- The unguarded encoding step of the augmentation notebook:
`y_train = keras.utils.to_categorical(y_train, num_classes)`. -/
def encode_step_b (y : Tensor) : Tensor := to_categorical y

/-- Padding mode of a convolution or pooling layer. -/
inductive Padding where
  | same
  | valid
deriving DecidableEq

/-- Activation function of a layer. -/
inductive ActivationKind where
  | relu
  | softmax
deriving DecidableEq

/-- A layer declaration, as passed to the framework's sequential builder. -/
inductive LayerSpec where
  | conv2D (filters : ℕ) (kernel : ℕ × ℕ) (strides : ℕ) (padding : Padding)
      (activation : ActivationKind) (inputShape : Option (ℕ × ℕ × ℕ))
  | batchNorm
  | maxPool2D (pool : ℕ × ℕ) (strides : ℕ) (padding : Padding)
  | dropout (rate : ℚ)
  | flattenLayer
  | dense (units : ℕ) (activation : ActivationKind)
deriving DecidableEq

/-- The architecture declared in the first training notebook (Asl_a_cnn),
transcribed `model.add` by `model.add`. -/
def model_a_layers : List LayerSpec :=
  [ .conv2D 75 (3, 3) 1 .same .relu (some (28, 28, 1))
  , .batchNorm
  , .maxPool2D (2, 2) 2 .same
  , .conv2D 50 (3, 3) 1 .same .relu none
  , .dropout 0.2
  , .batchNorm
  , .maxPool2D (2, 2) 2 .same
  , .conv2D 25 (3, 3) 1 .same .relu none
  , .batchNorm
  , .maxPool2D (2, 2) 2 .same
  , .flattenLayer
  , .dense 512 .relu
  , .dropout 0.3
  , .dense 24 .softmax ]

/-- The architecture declared in the augmentation/training notebook
(Asl_b_c_augment_pred), transcribed `model.add` by `model.add`. -/
def model_b_layers : List LayerSpec :=
  [ .conv2D 75 (3, 3) 1 .same .relu (some (28, 28, 1))
  , .batchNorm
  , .maxPool2D (2, 2) 2 .same
  , .conv2D 50 (3, 3) 1 .same .relu none
  , .dropout 0.2
  , .batchNorm
  , .maxPool2D (2, 2) 2 .same
  , .conv2D 25 (3, 3) 1 .same .relu none
  , .batchNorm
  , .maxPool2D (2, 2) 2 .same
  , .flattenLayer
  , .dense 512 .relu
  , .dropout 0.3
  , .dense 24 .softmax ]

/-- A trained model: the declared architecture plus learned parameters. -/
structure TrainedModel where
  architecture : List LayerSpec
  parameters : List ℚ
deriving DecidableEq

/-- The serialized artifact written to the named location `asl_model`. -/
structure SavedArtifact where
  architecture : List LayerSpec
  parameters : List ℚ
deriving DecidableEq

/-- Modelled from the spec: `model.save` delegates serialization to the
external framework; the artifact records architecture and parameters. -/
def save (m : TrainedModel) : SavedArtifact :=
  { architecture := m.architecture, parameters := m.parameters }

/-- Modelled from the spec: `keras.models.load_model` deserializes the
artifact back into a usable model with the recorded architecture and
parameters. -/
def load_model (a : SavedArtifact) : TrainedModel :=
  { architecture := a.architecture, parameters := a.parameters }

/-- Inference through a trained model: the external framework's forward pass
applied to the model's architecture and parameters. -/
def predictWith
    (forwardPass : List LayerSpec → List ℚ → List (List (List (List ℚ))) → List ℚ)
    (m : TrainedModel) (input : List (List (List (List ℚ)))) : List ℚ :=
  forwardPass m.architecture m.parameters input

/-- `batch_size = 32` from the augmentation notebook. -/
def batch_size : ℕ := 32

/-- `epochs=20` passed to `model.fit` in the augmentation notebook. -/
def epochs : ℕ := 20

/-- Modelled from the spec: `datagen.flow(x_train, y_train, batch_size)` is a
lazy, effectively infinite sequence of augmented batches — it yields a batch
of `batch_size` stochastically perturbed training images at every index `n`
and never terminates on its own.  The stochastic transform is abstracted as
the parameter `augment`. -/
def img_iter (augment : ℕ → List ℚ → List ℚ) (x_train : List (List ℚ))
    (n : ℕ) : List (List ℚ) :=
  (List.range batch_size).map
    (fun i => augment (n * batch_size + i)
      (x_train.getD ((n * batch_size + i) % x_train.length) []))

/-- `steps_per_epoch=len(x_train)/batch_size` from `model.fit`; the
division is rounded down (floor), the rounding the spec recommends. -/
def steps_per_epoch (datasetSize bs : ℕ) : ℕ := datasetSize / bs

/-- Modelled from the spec: the Training Driver (`model.fit`) consumes the
generator for `numEpochs` epochs, drawing exactly `steps` batches in each
epoch; it returns the per-epoch log of drawn batches. -/
def trainingDriverRun (gen : ℕ → List (List ℚ)) (numEpochs steps : ℕ) :
    List (List (List (List ℚ))) :=
  (List.range numEpochs).map
    (fun e => (List.range steps).map (fun s => gen (e * steps + s)))

set_option maxRecDepth 100000

/-- For a nonempty tail, `maxList` of a cons is the binary max. -/
lemma maxList_cons (x : ℚ) (xs : List ℚ) (h : xs ≠ []) :
    maxList (x :: xs) = max x (maxList xs) := by
  cases xs with
  | nil => exact absurd rfl h
  | cons y ys => rfl

/-- The arg-max of a nonempty list is a valid index. -/
lemma argmax_lt_length (v : List ℚ) (h : v ≠ []) : argmax v < v.length := by
  induction v with
  | nil => exact absurd rfl h
  | cons x xs ih =>
    cases xs with
    | nil => simp [argmax]
    | cons y ys =>
      by_cases hle : maxList (y :: ys) ≤ x
      · simp [argmax, hle]
      · have := ih (by simp)
        simp only [argmax, if_neg hle, List.length_cons] at this ⊢
        omega

/-- The entry at the arg-max index is the maximum of the list. -/
lemma get?_argmax (v : List ℚ) (h : v ≠ []) :
    v.get? (argmax v) = some (maxList v) := by
  induction v with
  | nil => exact absurd rfl h
  | cons x xs ih =>
    cases xs with
    | nil => simp [argmax, maxList]
    | cons y ys =>
      by_cases hle : maxList (y :: ys) ≤ x
      · simp [argmax, maxList, hle, max_eq_left]
      · have hx : x < maxList (y :: ys) := not_le.mp hle
        simp only [argmax, if_neg hle, List.get?_cons_succ, maxList]
        rw [ih (by simp), max_eq_right hx.le]

/-- No index before the arg-max attains the maximum: the first occurrence
of the maximum wins. -/
lemma argmax_first (v : List ℚ) (i : ℕ) (hi : i < v.length)
    (hg : v.get? i = some (maxList v)) : argmax v ≤ i := by
  induction v generalizing i with
  | nil => simp at hi
  | cons x xs ih =>
    cases xs with
    | nil => simp [argmax]
    | cons y ys =>
      by_cases hle : maxList (y :: ys) ≤ x
      · simp [argmax, hle]
      · have hx : x < maxList (y :: ys) := not_le.mp hle
        simp only [argmax, if_neg hle]
        cases i with
        | zero =>
          rw [List.get?_cons_zero, maxList_cons x (y :: ys) (by simp),
            max_eq_right hx.le] at hg
          exact absurd (Option.some.inj hg) hx.ne
        | succ j =>
          rw [List.get?_cons_succ, maxList_cons x (y :: ys) (by simp),
            max_eq_right hx.le] at hg
          have := ih (i := j) (by simpa using hi) hg
          omega

/-- `chunkRows n` always produces `n` rows. -/
lemma chunkRows_length (n : ℕ) : ∀ l : List ℚ, (chunkRows n l).length = n := by
  induction n with
  | zero => intro l; rfl
  | succ n ih => intro l; simp [chunkRows, ih]

/-- On input long enough, every row of `chunkRows` has 28 entries. -/
lemma chunkRows_row_length (n : ℕ) : ∀ l : List ℚ, 28 * n ≤ l.length →
    ∀ r ∈ chunkRows n l, r.length = 28 := by
  induction n with
  | zero => intro l _ r hr; simp [chunkRows] at hr
  | succ n ih =>
    intro l hl r hr
    simp only [chunkRows, List.mem_cons] at hr
    rcases hr with rfl | hr
    · simp only [List.length_take]
      omega
    · exact ih (l.drop 28) (by simp only [List.length_drop]; omega) r hr

/-- Every entry of every row of `chunkRows` comes from the input list. -/
lemma chunkRows_subset (n : ℕ) : ∀ (l r : List ℚ), r ∈ chunkRows n l →
    ∀ a ∈ r, a ∈ l := by
  induction n with
  | zero => intro l r hr; simp [chunkRows] at hr
  | succ n ih =>
    intro l r hr a ha
    simp only [chunkRows, List.mem_cons] at hr
    rcases hr with rfl | hr
    · exact List.take_subset _ _ ha
    · exact List.drop_subset _ _ (ih _ r hr a ha)

/-- The innermost dimension of a nonempty list of scalar entries is its
length. -/
lemma lastDimList_map_scalarFun (g : ℕ → ℕ) (l : List ℕ) (h : l ≠ []) :
    lastDimList (l.map (fun i => Tensor.scalar (g i))) = l.length := by
  cases l with
  | nil => exact absurd rfl h
  | cons a as => simp [lastDimList]

/-- An indicator row has innermost dimension 24. -/
lemma lastDimList_oneHotRow (s : ℕ) : lastDimList (oneHotRow s) = 24 := by
  rw [oneHotRow, lastDimList_map_scalarFun _ _ (by decide)]
  simp

/-- The innermost dimension of a list starting with a nested array is that
of the nested array. -/
lemma lastDimList_arr_cons (us ts : List Tensor) :
    lastDimList (Tensor.arr us :: ts) = lastDimList us := rfl

/-- Categorically encoding a nonempty flat label vector yields data whose
final dimension is 24. -/
lemma lastDim_toCat_flat (labels : List ℕ) (h : labels ≠ []) :
    lastDim (to_categorical (flatLabels labels)) = 24 := by
  cases labels with
  | nil => exact absurd rfl h
  | cons a as =>
    have hstep : lastDim (to_categorical (flatLabels (a :: as))) =
        lastDimList (oneHotRow a) := rfl
    rw [hstep, lastDimList_oneHotRow]

/-- The guarded encoding step of the first training notebook is idempotent
on a nonempty flat label vector. -/
lemma guarded_encode_idem (labels : List ℕ) (h : labels ≠ []) :
    encode_step_a (encode_step_a (flatLabels labels)) =
      encode_step_a (flatLabels labels) := by
  by_cases h24 : lastDim (flatLabels labels) = 24
  · simp [encode_step_a, h24]
  · have h1 : encode_step_a (flatLabels labels) =
        to_categorical (flatLabels labels) := by
      simp [encode_step_a, h24]
    rw [h1]
    simp [encode_step_a, lastDim_toCat_flat labels h]

/-- Auxiliary decidable core of the one-hot properties, for labels already
given as bounded naturals. -/
lemma oneHot_nat_props : ∀ n : ℕ, n < 24 →
    (((List.range 24).map
        (fun i => if (i : ℤ) = ((n : ℕ) : ℤ) then (1 : ℚ) else 0)).length = 24 ∧
      ((List.range 24).map
        (fun i => if (i : ℤ) = ((n : ℕ) : ℤ) then (1 : ℚ) else 0)).count 1 = 1 ∧
      ((List.range 24).map
        (fun i => if (i : ℤ) = ((n : ℕ) : ℤ) then (1 : ℚ) else 0)).count 0 = 23 ∧
      ((List.range 24).map
        (fun i => if (i : ℤ) = ((n : ℕ) : ℤ) then (1 : ℚ) else 0)).get? n = some 1 ∧
      argmax ((List.range 24).map
        (fun i => if (i : ℤ) = ((n : ℕ) : ℤ) then (1 : ℚ) else 0)) = n) := by
  decide

/-- Claim C1: for every image file path whose image can be loaded (as a
28x28 single-channel grayscale image, hence 784 intensities),
`predict_letter` reshapes the numeric array to (1,28,28,1), divides every
value by 255 (the very same scalar operation as the training
normalization), runs the model's forward pass, takes the arg-max of the
24-element output, and returns the character at that index of the fixed
alphabet string. -/
theorem predict_letter_steps
    (load_and_scale_image : String → Option (List ℕ))
    (model_predict : List (List (List (List ℚ))) → List ℚ)
    (file_path : String) (image : List ℕ)
    (hload : load_and_scale_image file_path = some image)
    (hsize : image.length = 784)
    (hmodel : ∀ x, (model_predict x).length = 24) :
    predict_letter load_and_scale_image model_predict file_path =
      alphabet.toList.get?
        (argmax (model_predict
          (mapGrid4 normalizeValue [pixelGrid (img_to_array image)]))) ∧
    (∃ c : Char,
      predict_letter load_and_scale_image model_predict file_path = some c) ∧
    (∀ pixels : List ℕ,
      normalize pixels = (img_to_array pixels).map normalizeValue) := by
  have harr : (img_to_array image).length = 784 := by simp [img_to_array, hsize]
  have hok : reshapePixels (img_to_array image) =
      .ok (pixelGrid (img_to_array image)) := by
    rw [reshapePixels, if_pos harr]
  have hre : reshape_1_28_28_1 (img_to_array image) =
      .ok [pixelGrid (img_to_array image)] := by
    simp only [reshape_1_28_28_1, hok]
  have hmain : predict_letter load_and_scale_image model_predict file_path =
      alphabet.toList.get?
        (argmax (model_predict
          (mapGrid4 normalizeValue [pixelGrid (img_to_array image)]))) := by
    simp only [predict_letter, hload, hre]
  refine ⟨hmain, ?_, ?_⟩
  · have hvlen : (model_predict
        (mapGrid4 normalizeValue [pixelGrid (img_to_array image)])).length = 24 :=
      hmodel _
    have hvne : model_predict
        (mapGrid4 normalizeValue [pixelGrid (img_to_array image)]) ≠ [] := by
      intro hz
      rw [hz] at hvlen
      simp at hvlen
    have hlt : argmax (model_predict
        (mapGrid4 normalizeValue [pixelGrid (img_to_array image)])) < 24 :=
      hvlen ▸ argmax_lt_length _ hvne
    have hal : alphabet.toList.length = 24 := by decide
    refine ⟨alphabet.toList.get ⟨argmax (model_predict
      (mapGrid4 normalizeValue [pixelGrid (img_to_array image)])), by omega⟩, ?_⟩
    rw [hmain, List.get?_eq_get]
  · intro pixels
    simp [normalize, img_to_array, normalizeValue, List.map_map, Function.comp]

/-- Witness for C1: the pipeline applied to a concrete loader, model and
path, with every hypothesis discharged at those inputs. -/
theorem predict_letter_steps_witness :
    constLoader blankPath = some blankImage ∧ blankImage.length = 784 ∧
    (∀ x, (uniformModel x).length = 24) ∧
    predict_letter constLoader uniformModel blankPath =
      alphabet.toList.get?
        (argmax (uniformModel
          (mapGrid4 normalizeValue [pixelGrid (img_to_array blankImage)]))) :=
  ⟨rfl, by simp [blankImage], fun x => by simp [uniformModel],
    (predict_letter_steps constLoader uniformModel blankPath blankImage rfl
      (by simp [blankImage]) (fun x => by simp [uniformModel])).1⟩

/-- Claim C2: the fixed alphabet string has exactly 24 characters, is the
26-letter lowercase alphabet with exactly 'j' and 'z' removed, and maps
index 0 to 'a', index 8 to 'i', index 9 to 'k' and index 23 to 'y'. -/
theorem alphabet_mapping :
    alphabet.length = 24 ∧
    alphabet.toList =
      lowercaseLetters.filter (fun c => !(c == 'j' || c == 'z')) ∧
    alphabet.toList.get? 0 = some 'a' ∧
    alphabet.toList.get? 8 = some 'i' ∧
    alphabet.toList.get? 9 = some 'k' ∧
    alphabet.toList.get? 23 = some 'y' := by
  decide

/-- Claim C3: one-hot encoding a label in [0,23] into 24 categories yields
a 24-wide vector with exactly one 1 (at the label's index) and 23 zeros,
whose arg-max is the label; any label outside [0,23] fails with
`LabelOutOfRange`. -/
theorem oneHotEncode_props :
    (∀ L : ℤ, 0 ≤ L → L ≤ 23 →
      ∃ v : List ℚ, oneHotEncode L 24 = .ok v ∧ v.length = 24 ∧
        v.count 1 = 1 ∧ v.count 0 = 23 ∧ v.get? L.toNat = some 1 ∧
        argmax v = L.toNat) ∧
    (∀ L : ℤ, L < 0 ∨ 23 < L →
      oneHotEncode L 24 = .error .LabelOutOfRange) := by
  constructor
  · intro L h0 h23
    obtain ⟨n, rfl⟩ : ∃ n : ℕ, L = (n : ℤ) :=
      ⟨L.toNat, (Int.toNat_of_nonneg h0).symm⟩
    have hn : n < 24 := by omega
    have hok : oneHotEncode (n : ℤ) 24 =
        .ok ((List.range 24).map
          (fun i => if (i : ℤ) = ((n : ℕ) : ℤ) then (1 : ℚ) else 0)) := by
      rw [oneHotEncode, if_pos ⟨by omega, by omega⟩]
    obtain ⟨hlen, hc1, hc0, hget, hargmax⟩ := oneHot_nat_props n hn
    refine ⟨_, hok, hlen, hc1, hc0, ?_, ?_⟩
    · simpa using hget
    · simpa using hargmax
  · intro L h
    rw [oneHotEncode, if_neg]
    rintro ⟨h1, h2⟩
    omega

/-- Witness for C3: the one-hot properties at label 9 and the failure at
label 42, with the hypotheses discharged concretely. -/
theorem oneHotEncode_props_witness :
    ((0 : ℤ) ≤ 9 ∧ (9 : ℤ) ≤ 23 ∧
      ∃ v : List ℚ, oneHotEncode 9 24 = .ok v ∧ v.length = 24 ∧
        v.count 1 = 1 ∧ v.count 0 = 23 ∧ v.get? (9 : ℤ).toNat = some 1 ∧
        argmax v = (9 : ℤ).toNat) ∧
    (((23 : ℤ) < 42) ∧ oneHotEncode 42 24 = .error .LabelOutOfRange) :=
  ⟨⟨by decide, by decide, oneHotEncode_props.1 9 (by decide) (by decide)⟩,
    ⟨by decide, oneHotEncode_props.2 42 (Or.inr (by decide))⟩⟩

/-- Claim C4: normalizing a 784-entry pixel vector with intensities in
[0,255] and then reshaping yields a 28x28x1 grid every value of which lies
in [0,1]. -/
theorem normalize_reshape_unit_interval (pixels : List ℕ)
    (hlen : pixels.length = 784) (hub : ∀ p ∈ pixels, p ≤ 255) :
    ∃ grid, reshapePixels (normalize pixels) = .ok grid ∧
      grid.length = 28 ∧
      (∀ row ∈ grid, row.length = 28 ∧
        ∀ cell ∈ row, cell.length = 1 ∧ ∀ v ∈ cell, 0 ≤ v ∧ v ≤ 1) := by
  have hnl : (normalize pixels).length = 784 := by simp [normalize, hlen]
  refine ⟨pixelGrid (normalize pixels), by simp [reshapePixels, hnl], ?_, ?_⟩
  · simp [pixelGrid, chunkRows_length]
  · intro row hrow
    simp only [pixelGrid, List.mem_map] at hrow
    obtain ⟨r, hr, rfl⟩ := hrow
    have hr28 : r.length = 28 :=
      chunkRows_row_length 28 (normalize pixels) (by omega) r hr
    refine ⟨by simp [hr28], ?_⟩
    intro cell hcell
    simp only [List.mem_map] at hcell
    obtain ⟨q0, hq0, rfl⟩ := hcell
    refine ⟨rfl, ?_⟩
    intro v hv
    rw [List.mem_singleton] at hv
    rw [hv]
    have hpn : q0 ∈ normalize pixels :=
      chunkRows_subset 28 (normalize pixels) r hr q0 hq0
    simp only [normalize, List.mem_map] at hpn
    obtain ⟨q, hq, rfl⟩ := hpn
    constructor
    · positivity
    · rw [div_le_one (by norm_num)]
      exact_mod_cast hub q hq

/-- Witness for C4: the normalize-then-reshape property at the concrete
all-zero 784-pixel vector. -/
theorem normalize_reshape_unit_interval_witness :
    blankImage.length = 784 ∧ (∀ p ∈ blankImage, p ≤ 255) ∧
    ∃ grid, reshapePixels (normalize blankImage) = .ok grid ∧
      grid.length = 28 ∧
      (∀ row ∈ grid, row.length = 28 ∧
        ∀ cell ∈ row, cell.length = 1 ∧ ∀ v ∈ cell, 0 ≤ v ∧ v ≤ 1) :=
  ⟨by simp [blankImage],
    fun p hp => by
      rw [blankImage] at hp
      rw [List.eq_of_mem_replicate hp]
      omega,
    normalize_reshape_unit_interval blankImage (by simp [blankImage])
      (fun p hp => by
        rw [blankImage] at hp
        rw [List.eq_of_mem_replicate hp]
        omega)⟩

/-- Claim C5: loading the artifact produced by saving a trained model yields
a model behaviorally equivalent to the original for inference: the loaded
model produces identical predictions on every input. -/
theorem save_load_roundtrip
    (forwardPass : List LayerSpec → List ℚ → List (List (List (List ℚ))) → List ℚ)
    (m : TrainedModel) (input : List (List (List (List ℚ)))) :
    load_model (save m) = m ∧
    predictWith forwardPass (load_model (save m)) input =
      predictWith forwardPass m input :=
  ⟨rfl, rfl⟩

/-- Counterexample for C6: the augmentation notebook's encoding step is
unconditional, so running it again on already-encoded labels re-encodes
them, contradicting the claim that re-encoding is detected and skipped no
matter how many times the encoding step runs. -/
theorem unguarded_encode_double_encodes :
    ¬ (encode_step_b (encode_step_b (flatLabels [3, 0])) =
        encode_step_b (flatLabels [3, 0])) := by
  intro h
  exact absurd (congrArg depth h) (by decide)

/-- Claim C6 (amended): in the first training notebook the encoding step is
guarded by checking whether the final dimension is already 24 and skipping
the encoding when it is, so its labels are encoded at most once however
many times the step runs; the augmentation notebook's encoding statement
carries no such guard. -/
theorem guarded_encode_at_most_once (labels : List ℕ) (k : ℕ)
    (h : labels ≠ []) :
    encode_step_a^[k] (encode_step_a (flatLabels labels)) =
      encode_step_a (flatLabels labels) := by
  induction k with
  | zero => rfl
  | succ k ih => rw [Function.iterate_succ_apply, guarded_encode_idem labels h, ih]

/-- Witness for C6 (amended): the guarded step applied repeatedly to the
concrete label vector [3, 0] encodes it exactly once. -/
theorem guarded_encode_at_most_once_witness :
    ([3, 0] ≠ ([] : List ℕ)) ∧
    encode_step_a^[2] (encode_step_a (flatLabels [3, 0])) =
      encode_step_a (flatLabels [3, 0]) :=
  ⟨by decide, guarded_encode_at_most_once [3, 0] 2 (by decide)⟩

/-- Claim C7: the reshape viewing a flat pixel vector as a 28x28x1 grid
succeeds exactly on inputs of length 784 and fails with `ShapeMismatch` on
every other input. -/
theorem reshape_shape_contract (pixels : List ℚ) :
    (pixels.length = 784 → reshapePixels pixels = .ok (pixelGrid pixels)) ∧
    (pixels.length ≠ 784 → reshapePixels pixels = .error .ShapeMismatch) := by
  constructor <;> intro h <;> simp [reshapePixels, h]

/-- Witness for C7: the reshape contract at a concrete 784-entry vector and
at a concrete 1-entry vector. -/
theorem reshape_shape_contract_witness :
    ((List.replicate 784 (0 : ℚ)).length = 784 ∧
      reshapePixels (List.replicate 784 (0 : ℚ)) =
        .ok (pixelGrid (List.replicate 784 (0 : ℚ)))) ∧
    (([(0 : ℚ)].length ≠ 784) ∧
      reshapePixels [(0 : ℚ)] = .error .ShapeMismatch) :=
  ⟨⟨by simp, (reshape_shape_contract _).1 (by simp)⟩,
    ⟨by simp, (reshape_shape_contract _).2 (by simp)⟩⟩

/-- Claim C8: ties in the model's probability vector are resolved to the
first-occurring (lowest) index attaining the maximum, and `predict_letter`
on a blank all-zero image with a degenerate constant model returns the
single deterministic character at that index rather than an error. -/
theorem argmax_tie_break :
    (∀ v : List ℚ, v ≠ [] → v.get? (argmax v) = some (maxList v)) ∧
    (∀ (v : List ℚ) (i : ℕ), i < v.length → v.get? i = some (maxList v) →
      argmax v ≤ i) ∧
    predict_letter constLoader uniformModel blankPath = some 'a' :=
  ⟨fun v h => get?_argmax v h,
    fun v i hi hg => argmax_first v i hi hg,
    by decide⟩

/-- Witness for C8: the arg-max of a concrete vector with a tied maximum is
its first maximal index. -/
theorem argmax_tie_break_witness :
    (([(1 : ℚ), 5, 5] ≠ []) ∧
      [(1 : ℚ), 5, 5].get? (argmax [(1 : ℚ), 5, 5]) =
        some (maxList [(1 : ℚ), 5, 5])) ∧
    ((1 < [(1 : ℚ), 5, 5].length ∧
        [(1 : ℚ), 5, 5].get? 1 = some (maxList [(1 : ℚ), 5, 5])) ∧
      argmax [(1 : ℚ), 5, 5] ≤ 1) :=
  ⟨⟨by decide, argmax_tie_break.1 _ (by decide)⟩,
    ⟨⟨by decide, by decide⟩, argmax_tie_break.2.1 [(1 : ℚ), 5, 5] 1 (by decide) (by decide)⟩⟩

/-- Claim C9: the augmented batch generator yields a batch at every index
(an effectively infinite sequence), and the training driver bounds its
consumption: 20 epochs, each drawing exactly dataset-size divided by
batch-size (floored) batches, so every epoch's log is finite with exactly
that many entries. -/
theorem augmented_training_bounded
    (augment : ℕ → List ℚ → List ℚ) (x_train : List (List ℚ))
    (gen : ℕ → List (List ℚ)) (n : ℕ) :
    (img_iter augment x_train n).length = batch_size ∧
    (trainingDriverRun gen epochs
      (steps_per_epoch x_train.length batch_size)).length = epochs ∧
    (trainingDriverRun gen epochs
        (steps_per_epoch x_train.length batch_size)).map List.length =
      List.replicate epochs (steps_per_epoch x_train.length batch_size) ∧
    epochs = 20 ∧ batch_size = 32 ∧ steps_per_epoch 27455 batch_size = 857 := by
  refine ⟨?_, ?_, ?_, rfl, rfl, by decide⟩
  · simp [img_iter]
  · simp [trainingDriverRun]
  · have hconst : (List.length ∘ fun e : ℕ =>
        (List.range (steps_per_epoch x_train.length batch_size)).map
          (fun s => gen (e * steps_per_epoch x_train.length batch_size + s))) =
        fun _ : ℕ => steps_per_epoch x_train.length batch_size :=
      funext fun e => by simp
    rw [trainingDriverRun, List.map_map, hconst, List.map_const',
      List.length_range]

/-- Claim C10: the architecture declared in the augmentation/training
notebook is layer-for-layer identical to the one in the first training
notebook, and both equal the fixed sequence with filter counts 75, 50, 25,
3x3 kernels with stride 1 and same padding, 2x2 stride-2 max pooling,
dropout 0.2 after the second convolution, a 512-unit dense layer followed
by dropout 0.3, and a final 24-unit softmax layer. -/
theorem architectures_identical :
    model_b_layers = model_a_layers ∧
    model_a_layers =
      [ .conv2D 75 (3, 3) 1 .same .relu (some (28, 28, 1))
      , .batchNorm
      , .maxPool2D (2, 2) 2 .same
      , .conv2D 50 (3, 3) 1 .same .relu none
      , .dropout 0.2
      , .batchNorm
      , .maxPool2D (2, 2) 2 .same
      , .conv2D 25 (3, 3) 1 .same .relu none
      , .batchNorm
      , .maxPool2D (2, 2) 2 .same
      , .flattenLayer
      , .dense 512 .relu
      , .dropout 0.3
      , .dense 24 .softmax ] :=
  ⟨rfl, rfl⟩

end CNNASL
